import Mathlib

/-!
# MidiDeviceMappingModel

A shallow embedding of `src/framework/midi/view/mididevicemappingmodel.cpp`
(MuseScore): the list model behind the MIDI device mapping preferences page.

The model owns a list of mapping rows (`m_midiMappings`) and a selection
(`m_selection`).  Its collaborators (the actions registry, the MIDI remote
service, the event codec of `midi/miditypes.h`) are declared in other files
of the repository and enter as parameters.  Operations whose C++ behaviour is
undefined (indexing a list out of bounds, `first()` of an empty list) return
`none`.
-/

namespace MuseScore

/-! ## Collaborator types -/

/-- Action identifiers (`actions::ActionCode`): plain strings. -/
abbrev ActionCode := String

/-- A mapping row (`shortcuts::MidiMapping`): the two members the model
reads and writes, `action` and `event`. -/
structure MidiMapping (Event : Type) where
  action : ActionCode
  event : Event
  deriving DecidableEq, Repr

/-- Modelled from the spec: the members of `midi::Event` and
`shortcuts::MidiMapping` that the model calls but whose declarations
(`midi/miditypes.h`, `shortcuts/shortcutstypes.h`) are missing from the
sources: the default event `Event()`, the conversion of the event from and to
its compact numeric encoding, and `MidiMapping::isValid()`. -/
structure MidiTypes (Event : Type) where
  /-- `Event()` -/
  defaultEvent : Event
  /-- `Event::fromMIDI10Package(value)` called with an `int` argument -/
  fromMIDI10Package : Int → Event
  /-- `Event::to_MIDI10Package()`, an unsigned 32-bit value -/
  to_MIDI10Package : Event → Nat
  /-- `MidiMapping::isValid()` -/
  mappingIsValid : MidiMapping Event → Bool

/-- Modelled from the spec: the constructor `MidiMapping(actionCode)` of
`shortcuts/shortcutstypes.h` (missing from the sources): a mapping for the
given action with a default event. -/
def MidiMapping.ofAction {Event : Type} (T : MidiTypes Event) (actionCode : ActionCode) :
    MidiMapping Event :=
  { action := actionCode, event := T.defaultEvent }

/-- Modelled from the spec: what the model reads of a `ui::UiAction`
(`ui/uitypes.h`, missing from the sources): "given an action identifier,
returns its display title, icon identifier, and validity". -/
structure UiAction where
  title : String
  iconCode : Int
  /-- the answer of `UiAction::isValid()` -/
  isValid : Bool
  deriving DecidableEq, Repr

/-- The actions registry, `uiActionsRegister()->action(code)`. -/
abbrev IUiActionsRegister := ActionCode → UiAction

/-- Modelled from the spec: the result type `Ret` (missing from the sources):
"a success/failure result with a descriptive message on failure".  `success`
is its conversion to `bool`, `text` is `toString()`. -/
structure Ret where
  success : Bool
  text : String
  deriving DecidableEq, Repr

/-- The MIDI remote service (`shortcuts::IMidiRemote`) over a service state
`R`: the current mapping set, and the replacement of the set, which answers
with a `Ret` and a new service state. -/
structure IMidiRemote (Event R : Type) where
  midiMappings : R → List (MidiMapping Event)
  setMidiMappings : R → List (MidiMapping Event) → Ret × R

/-! ## The fragment of Qt the model uses -/

/-- A `QModelIndex`: row, column and whether it refers to a model. -/
structure QModelIndex where
  row : Int
  column : Int
  hasModel : Bool
  deriving DecidableEq, Repr

/-- `QModelIndex::isValid()`: non-negative row and column and a model. -/
def QModelIndex.isValid (i : QModelIndex) : Bool :=
  decide (0 ≤ i.row) && decide (0 ≤ i.column) && i.hasModel

/-- The index of row `n` of a list model (column 0). -/
def QModelIndex.ofRow (n : Nat) : QModelIndex :=
  { row := (n : Int), column := 0, hasModel := true }

/-- A `QItemSelectionRange` of a list model: the rows `top` to `bottom`. -/
structure QItemSelectionRange where
  top : Nat
  bottom : Nat
  deriving DecidableEq, Repr

/-- A `QItemSelection` is a list of ranges; `size()` is the number of
ranges, not the number of selected rows. -/
abbrev QItemSelection := List QItemSelectionRange

/-- The indexes of one range, top to bottom; a range with `top > bottom` is
not valid and has none. -/
def QItemSelectionRange.indexes (r : QItemSelectionRange) : List QModelIndex :=
  if r.top ≤ r.bottom then
    (List.range (r.bottom - r.top + 1)).map (fun k => QModelIndex.ofRow (r.top + k))
  else []

/-- `QItemSelection::indexes()`: the indexes of every range, in order. -/
def QItemSelection.indexes : QItemSelection → List QModelIndex
  | [] => []
  | r :: rest => r.indexes ++ QItemSelection.indexes rest

/-- A `QVariant`, with the payloads the model stores. -/
inductive QVariant where
  | invalid
  | string (s : String)
  | int (i : Int)
  | uint (n : Nat)
  | bool (b : Bool)
  | map (entries : List (String × QVariant))

/-- A `QVariantMap`, as an association list. -/
abbrev QVariantMap := List (String × QVariant)

/-- `QVariant::isValid()`. -/
def QVariant.isValid : QVariant → Bool
  | .invalid => false
  | _ => true

/-- `QVariant::toString()` on the payloads the model converts: a string is
itself, anything else here gives the empty string. -/
def QVariant.toString : QVariant → String
  | .string s => s
  | _ => ""

/-- `QVariant::toInt()`: an `int` is itself, an unsigned value is read as a
32-bit signed one, anything else here gives 0. -/
def QVariant.toInt : QVariant → Int
  | .int i => i
  | .uint n => if n % 2 ^ 32 < 2 ^ 31 then ((n % 2 ^ 32 : Nat) : Int)
               else ((n % 2 ^ 32 : Nat) : Int) - 2 ^ 32
  | _ => 0

/-- `QVariant::toBool()`: a `bool` is itself, an invalid variant is false. -/
def QVariant.toBool : QVariant → Bool
  | .bool b => b
  | _ => false

/-- The assignment `obj[key] = value`: replaces the entry of `key` or adds one. -/
def QVariantMap.assign : QVariantMap → String → QVariant → QVariantMap
  | [], key, value => [(key, value)]
  | (k, v) :: rest, key, value =>
    if k == key then (key, value) :: rest
    else (k, v) :: QVariantMap.assign rest key value

/-- The read `obj[key]`: the entry of `key`, an invalid variant when there is none. -/
def QVariantMap.value : QVariantMap → String → QVariant
  | [], _ => QVariant.invalid
  | (k, v) :: rest, key => if k == key then v else QVariantMap.value rest key

/-- `Qt::UserRole`. -/
def Qt_UserRole : Int := 256

/-! ## The model -/

def TITLE_KEY : String := "title"

def ICON_KEY : String := "icon"

def STATUS_KEY : String := "status"

def ENABLED_KEY : String := "enabled"

def MAPPED_VALUE_KEY : String := "mappedValue"

/-- The hard-coded catalog of MIDI-controllable actions. -/
def allMidiActions : List ActionCode :=
  [ "rewind",
    "loop",
    "play",
    "stop",
    "note-input",
    "pad-note-1",
    "pad-note-2",
    "pad-note-4",
    "pad-note-8",
    "pad-note-16",
    "pad-note-32",
    "pad-note-64",
    "undo",
    "pad-rest",
    "tie",
    "pad-dot",
    "pad-dotdot",
    "note-input-realtime-auto" ]

def RoleTitle : Int := Qt_UserRole + 1

def RoleIcon : Int := Qt_UserRole + 2

def RoleEnabled : Int := Qt_UserRole + 3

def RoleStatus : Int := Qt_UserRole + 4

def RoleMappedValue : Int := Qt_UserRole + 5

/-- The state of a `MidiDeviceMappingModel`: its rows and its selection. -/
structure MidiDeviceMappingModel (Event : Type) where
  m_midiMappings : List (MidiMapping Event)
  m_selection : QItemSelection
  deriving DecidableEq, Repr

/-- What an operation makes visible to the view: the model-reset brackets and
the signals it emits, in order. -/
inductive Notification where
  | beginResetModel
  | endResetModel
  | dataChanged (topLeft bottomRight : QModelIndex)
  | selectionChanged (selection : QItemSelection)
  deriving DecidableEq, Repr

/-- The element `list[row]` for an `int` row; `none` when out of bounds. -/
def rowAt {α : Type} (list : List α) (row : Int) : Option α :=
  if 0 ≤ row then list[row.toNat]? else none

namespace MidiDeviceMappingModel

variable {Event R : Type}

/-- `midiMappingToObject`: the display fields of one row. -/
def midiMappingToObject (T : MidiTypes Event) (uiActionsRegister : IUiActionsRegister)
    (midiMapping : MidiMapping Event) : QVariantMap :=
  let action := uiActionsRegister midiMapping.action
  let obj : QVariantMap := []
  let obj := obj.assign TITLE_KEY (QVariant.string action.title)
  let obj := obj.assign ICON_KEY (QVariant.int action.iconCode)
  let obj := obj.assign STATUS_KEY
    (QVariant.string (if T.mappingIsValid midiMapping then "Active" else "Inactive"))
  let obj := obj.assign MAPPED_VALUE_KEY
    (QVariant.uint (if T.mappingIsValid midiMapping then
      T.to_MIDI10Package midiMapping.event % 2 ^ 32 else 0))
  obj

/-- `data(index, role)`. -/
def data (T : MidiTypes Event) (uiActionsRegister : IUiActionsRegister)
    (m : MidiDeviceMappingModel Event) (index : QModelIndex) (role : Int) : Option QVariant :=
  if !index.isValid then some QVariant.invalid
  else
    match rowAt m.m_midiMappings index.row with
    | none => none
    | some midiMapping =>
      let obj := midiMappingToObject T uiActionsRegister midiMapping
      if role = RoleTitle then some (QVariant.string (obj.value TITLE_KEY).toString)
      else if role = RoleIcon then some (QVariant.int (obj.value ICON_KEY).toInt)
      else if role = RoleStatus then some (QVariant.string (obj.value STATUS_KEY).toString)
      else if role = RoleEnabled then some (QVariant.bool (obj.value ENABLED_KEY).toBool)
      else if role = RoleMappedValue then some (QVariant.int (obj.value MAPPED_VALUE_KEY).toInt)
      else some QVariant.invalid

/-- `rowCount()`. -/
def rowCount (m : MidiDeviceMappingModel Event) : Int :=
  (m.m_midiMappings.length : Int)

/-- The lambda `midiEvent` of `load()`: the event of the first mapping of the
list whose action is `actionCode`, `Event()` when there is none. -/
def midiEvent (T : MidiTypes Event) : List (MidiMapping Event) → ActionCode → Event
  | [], _ => T.defaultEvent
  | midiMapping :: rest, actionCode =>
    if midiMapping.action == actionCode then midiMapping.event
    else midiEvent T rest actionCode

/-- The loop of `load()` over the catalog, appending to the rows built so far. -/
def loadRows (T : MidiTypes Event) (uiActionsRegister : IUiActionsRegister)
    (midiMappings : List (MidiMapping Event)) :
    List ActionCode → List (MidiMapping Event) → List (MidiMapping Event)
  | [], rows => rows
  | actionCode :: rest, rows =>
    let action := uiActionsRegister actionCode
    if action.isValid then
      let midiMapping := MidiMapping.ofAction T actionCode
      let midiMapping := { midiMapping with event := midiEvent T midiMappings actionCode }
      loadRows T uiActionsRegister midiMappings rest (rows ++ [midiMapping])
    else
      loadRows T uiActionsRegister midiMappings rest rows

/-- `load()`: clears the rows and rebuilds them from the catalog. -/
def load (T : MidiTypes Event) (uiActionsRegister : IUiActionsRegister)
    (midiRemote : IMidiRemote Event R) (r : R) (m : MidiDeviceMappingModel Event) :
    MidiDeviceMappingModel Event × List Notification :=
  let cleared : List (MidiMapping Event) := []
  let midiMappings := midiRemote.midiMappings r
  let rows := loadRows T uiActionsRegister midiMappings allMidiActions cleared
  ({ m with m_midiMappings := rows },
   [Notification.beginResetModel, Notification.endResetModel])

/-- The outcome of `apply()`: the returned flag, the model and the service
state afterwards, the argument of every `setMidiMappings` call made, and the
error messages logged. -/
structure ApplyResult (Event R : Type) where
  ret : Bool
  model : MidiDeviceMappingModel Event
  remote : R
  sent : List (List (MidiMapping Event))
  logged : List String

/-- The copy loop of `apply()`. -/
def copyRows : List (MidiMapping Event) → List (MidiMapping Event) → List (MidiMapping Event)
  | [], midiMappings => midiMappings
  | midiMapping :: rest, midiMappings => copyRows rest (midiMappings ++ [midiMapping])

/-- `apply()`: hands a copy of the rows to the remote service. -/
def apply (midiRemote : IMidiRemote Event R) (r : R) (m : MidiDeviceMappingModel Event) :
    ApplyResult Event R :=
  let midiMappings := copyRows m.m_midiMappings []
  let answer := midiRemote.setMidiMappings r midiMappings
  let ret := answer.1
  { ret := ret.success
    model := m
    remote := answer.2
    sent := [midiMappings]
    logged := if !ret.success then [ret.text] else [] }

/-- `selection()`. -/
def selection (m : MidiDeviceMappingModel Event) : QItemSelection :=
  m.m_selection

/-- `setSelection(selection)`. -/
def setSelection (m : MidiDeviceMappingModel Event) (selection : QItemSelection) :
    MidiDeviceMappingModel Event × List Notification :=
  if selection = m.m_selection then (m, [])
  else ({ m with m_selection := selection }, [Notification.selectionChanged selection])

/-- `currentAction()`; `none` where the C++ is undefined. -/
def currentAction (T : MidiTypes Event) (uiActionsRegister : IUiActionsRegister)
    (m : MidiDeviceMappingModel Event) : Option QVariant :=
  if m.m_selection.length ≠ 1 then some QVariant.invalid
  else
    match m.m_selection.indexes.head? with
    | none => none
    | some first =>
      match rowAt m.m_midiMappings first.row with
      | none => none
      | some midiMapping =>
        some (QVariant.map (midiMappingToObject T uiActionsRegister midiMapping))

/-- `canEditAction()`. -/
def canEditAction (T : MidiTypes Event) (uiActionsRegister : IUiActionsRegister)
    (m : MidiDeviceMappingModel Event) : Option Bool :=
  (currentAction T uiActionsRegister m).map QVariant.isValid

/-- `mapCurrentActionToMidiValue(value)`; `none` where the C++ is undefined. -/
def mapCurrentActionToMidiValue (T : MidiTypes Event) (m : MidiDeviceMappingModel Event)
    (value : Int) : Option (MidiDeviceMappingModel Event × List Notification) :=
  match m.m_selection.indexes.head? with
  | none => none
  | some first =>
    match rowAt m.m_midiMappings first.row with
    | none => none
    | some midiMapping =>
      let edited : MidiMapping Event := { midiMapping with event := T.fromMIDI10Package value }
      some ({ m with m_midiMappings := m.m_midiMappings.set first.row.toNat edited },
            [Notification.dataChanged first first])

end MidiDeviceMappingModel

/-! ## Concrete collaborators, for evaluating the model on concrete inputs -/

/-- Modelled from the spec: a concrete event value, "conversion to/from a
compact numeric encoding": the event is its 32-bit package, 0 standing for
the default event, and a mapping is valid when its event is not the default. -/
def packedTypes : MidiTypes Nat :=
  { defaultEvent := 0
    fromMIDI10Package := fun value => (value % 2 ^ 32).toNat
    to_MIDI10Package := fun event => event
    mappingIsValid := fun midiMapping => midiMapping.event != 0 }

/-- A registry that knows every action except "loop". -/
def sampleRegister : IUiActionsRegister :=
  fun code => if code == "loop" then { title := "", iconCode := 0, isValid := false }
              else { title := code, iconCode := 1, isValid := true }

/-- A remote service that keeps the set it is handed and reports success. -/
def storingRemote : IMidiRemote Nat (List (MidiMapping Nat)) :=
  { midiMappings := fun r => r
    setMidiMappings := fun _ midiMappings => ({ success := true, text := "" }, midiMappings) }

/-- Two rows with default events. -/
def twoRows : List (MidiMapping Nat) :=
  [{ action := "rewind", event := 0 }, { action := "play", event := 0 }]

/-! ## Histories of a model -/

/-- A model state reached by `load()` followed by any number of selection
changes and edits of the current row. -/
inductive LoadedThenEdited {Event R : Type} (T : MidiTypes Event) (reg : IUiActionsRegister)
    (I : IMidiRemote Event R) : MidiDeviceMappingModel Event → Prop where
  | loaded (r : R) (m : MidiDeviceMappingModel Event) :
      LoadedThenEdited T reg I (MidiDeviceMappingModel.load T reg I r m).1
  | selected (m : MidiDeviceMappingModel Event) (selection : QItemSelection) :
      LoadedThenEdited T reg I m →
      LoadedThenEdited T reg I (MidiDeviceMappingModel.setSelection m selection).1
  | edited (m m' : MidiDeviceMappingModel Event) (value : Int) (fx : List Notification) :
      LoadedThenEdited T reg I m →
      MidiDeviceMappingModel.mapCurrentActionToMidiValue T m value = some (m', fx) →
      LoadedThenEdited T reg I m'

/-- The rows `twoRows` with row 1 selected. -/
def twoRowsSecondSelected : MidiDeviceMappingModel Nat :=
  { m_midiMappings := twoRows, m_selection := [{ top := 1, bottom := 1 }] }

/-- The model after `load()` from a service holding one mapping for "play"
and one for an action outside the catalog. -/
def loadedModel : MidiDeviceMappingModel Nat :=
  (MidiDeviceMappingModel.load packedTypes sampleRegister storingRemote
    [{ action := "play", event := 7 }, { action := "zoom-in", event := 9 }]
    { m_midiMappings := [], m_selection := [] }).1

/-- The model `loadedModel` with row 0 selected. -/
def selectedModel : MidiDeviceMappingModel Nat :=
  (MidiDeviceMappingModel.setSelection loadedModel [{ top := 0, bottom := 0 }]).1

/-- The model `selectedModel` with the event of row 0 set to 144. -/
def editedModel : MidiDeviceMappingModel Nat :=
  { selectedModel with
    m_midiMappings := selectedModel.m_midiMappings.set 0 { action := "rewind", event := 144 } }

/-! ## Theorems -/

open MidiDeviceMappingModel

variable {Event R : Type}

/-! ### The catalog and the loops -/

theorem allMidiActions_length : allMidiActions.length = 18 := rfl

theorem allMidiActions_nodup : allMidiActions.Nodup := by decide

/-- The loop of `load()` appends, for every valid action of the list in
order, one row carrying the action and its looked-up event. -/
theorem loadRows_eq (T : MidiTypes Event) (reg : IUiActionsRegister)
    (midiMappings : List (MidiMapping Event)) (codes : List ActionCode)
    (rows : List (MidiMapping Event)) :
    loadRows T reg midiMappings codes rows =
      rows ++ (codes.filter (fun a => (reg a).isValid)).map
        (fun a => { action := a, event := midiEvent T midiMappings a }) := by
  induction codes generalizing rows with
  | nil => simp [loadRows]
  | cons a rest ih =>
    by_cases h : (reg a).isValid = true
    · simp [loadRows, h, ih, MidiMapping.ofAction]
    · simp [loadRows, h, ih]

/-- The rows after `load()`, in closed form. -/
theorem load_mappings_eq (T : MidiTypes Event) (reg : IUiActionsRegister)
    (I : IMidiRemote Event R) (r : R) (m : MidiDeviceMappingModel Event) :
    (load T reg I r m).1.m_midiMappings =
      (allMidiActions.filter (fun a => (reg a).isValid)).map
        (fun a => { action := a, event := midiEvent T (I.midiMappings r) a }) := by
  simp [load, loadRows_eq]

/-- The actions of the rows after `load()`. -/
theorem load_actions (T : MidiTypes Event) (reg : IUiActionsRegister)
    (I : IMidiRemote Event R) (r : R) (m : MidiDeviceMappingModel Event) :
    (load T reg I r m).1.m_midiMappings.map MidiMapping.action =
      allMidiActions.filter (fun a => (reg a).isValid) := by
  rw [load_mappings_eq, List.map_map]
  exact List.map_id _

/-- The lookup finds the event of the first mapping with the action. -/
theorem midiEvent_first (T : MidiTypes Event) (pre post : List (MidiMapping Event))
    (p : MidiMapping Event) (a : ActionCode) (hp : p.action = a)
    (hpre : ∀ q ∈ pre, q.action ≠ a) :
    midiEvent T (pre ++ p :: post) a = p.event := by
  induction pre with
  | nil => simp [midiEvent, hp]
  | cons q rest ih =>
    have hq : q.action ≠ a := hpre q (List.mem_cons_self q rest)
    have hrest : ∀ q ∈ rest, q.action ≠ a := fun x hx => hpre x (List.mem_cons_of_mem q hx)
    simp [midiEvent, hq, ih hrest]

/-- The lookup gives the default event when no mapping has the action. -/
theorem midiEvent_absent (T : MidiTypes Event) (l : List (MidiMapping Event))
    (a : ActionCode) (h : ∀ q ∈ l, q.action ≠ a) :
    midiEvent T l a = T.defaultEvent := by
  induction l with
  | nil => rfl
  | cons q rest ih =>
    have hq : q.action ≠ a := h q (List.mem_cons_self q rest)
    have hrest : ∀ q ∈ rest, q.action ≠ a := fun x hx => h x (List.mem_cons_of_mem q hx)
    simp [midiEvent, hq, ih hrest]

/-- In a list whose actions are pairwise distinct the lookup of a row's
action finds that row's event. -/
theorem midiEvent_self (T : MidiTypes Event) (l : List (MidiMapping Event))
    (hnodup : (l.map MidiMapping.action).Nodup) (row : MidiMapping Event) (hrow : row ∈ l) :
    midiEvent T l row.action = row.event := by
  induction l with
  | nil => cases hrow
  | cons q rest ih =>
    rw [List.map_cons, List.nodup_cons] at hnodup
    rcases List.mem_cons.mp hrow with heq | hmem
    · subst heq
      simp [midiEvent]
    · have hne : q.action ≠ row.action := by
        intro hq
        exact hnodup.1 (hq ▸ List.mem_map_of_mem MidiMapping.action hmem)
      simp [midiEvent, hne, ih hnodup.2 hmem]

/-- Every row built by `load()` is a catalog action with its looked-up event. -/
theorem load_row_event (T : MidiTypes Event) (reg : IUiActionsRegister)
    (I : IMidiRemote Event R) (r : R) (m : MidiDeviceMappingModel Event)
    (row : MidiMapping Event) (hrow : row ∈ (load T reg I r m).1.m_midiMappings) :
    row.action ∈ allMidiActions ∧ row.event = midiEvent T (I.midiMappings r) row.action := by
  rw [load_mappings_eq] at hrow
  obtain ⟨a, ha, rfl⟩ := List.mem_map.mp hrow
  exact ⟨(List.mem_filter.mp ha).1, rfl⟩

/-- The copy loop of `apply()` appends the rows to the list built so far. -/
theorem copyRows_eq (rows acc : List (MidiMapping Event)) :
    copyRows rows acc = acc ++ rows := by
  induction rows generalizing acc with
  | nil => simp [copyRows]
  | cons row rest ih => simp [copyRows, ih]

/-- The list `apply()` hands to the service. -/
theorem apply_sent (I : IMidiRemote Event R) (r : R) (m : MidiDeviceMappingModel Event) :
    (apply I r m).sent = [m.m_midiMappings] := by
  simp [apply, copyRows_eq]

/-! ### The selection and the edit -/

/-- The first index of a valid range is its top row. -/
theorem range_indexes_head (rg : QItemSelectionRange) (h : rg.top ≤ rg.bottom) :
    rg.indexes.head? = some (QModelIndex.ofRow rg.top) := by
  simp [QItemSelectionRange.indexes, h, List.range_succ_eq_map]

/-- What the edit does when the first selected index is row `i` and in bounds. -/
theorem mapCurrent_of_head (T : MidiTypes Event) (m : MidiDeviceMappingModel Event)
    (i : Nat) (v : Int) (row : MidiMapping Event)
    (hhead : m.m_selection.indexes.head? = some (QModelIndex.ofRow i))
    (hrow : m.m_midiMappings[i]? = some row) :
    mapCurrentActionToMidiValue T m v =
      some ({ m with m_midiMappings :=
                m.m_midiMappings.set i { row with event := T.fromMIDI10Package v } },
            [Notification.dataChanged (QModelIndex.ofRow i) (QModelIndex.ofRow i)]) := by
  simp [mapCurrentActionToMidiValue, hhead, rowAt, QModelIndex.ofRow, hrow]

/-- Overwriting the event of a row keeps the actions of the list. -/
theorem set_event_actions (l : List (MidiMapping Event)) (i : Nat) (row : MidiMapping Event)
    (e : Event) (hrow : l[i]? = some row) :
    (l.set i { row with event := e }).map MidiMapping.action = l.map MidiMapping.action := by
  apply List.ext_getElem?
  intro j
  by_cases hj : i = j
  · subst hj
    have hi : i < l.length := by
      by_contra hcon
      rw [List.getElem?_eq_none (Nat.le_of_not_lt hcon)] at hrow
      cases hrow
    have hget : l[i] = row := by
      rw [List.getElem?_eq_getElem hi] at hrow
      exact Option.some.inj hrow
    simp [List.getElem?_set, hi, hget]
  · simp [List.getElem?_set, hj]

/-- A successful edit keeps the actions of the rows. -/
theorem mapCurrent_actions (T : MidiTypes Event) (m m' : MidiDeviceMappingModel Event)
    (v : Int) (fx : List Notification)
    (h : mapCurrentActionToMidiValue T m v = some (m', fx)) :
    m'.m_midiMappings.map MidiMapping.action = m.m_midiMappings.map MidiMapping.action := by
  unfold mapCurrentActionToMidiValue at h
  cases hhead : m.m_selection.indexes.head? with
  | none => simp [hhead] at h
  | some first =>
    cases hrow : rowAt m.m_midiMappings first.row with
    | none => simp [hhead, hrow] at h
    | some row =>
      simp only [hhead, hrow, Option.some.injEq, Prod.mk.injEq] at h
      rw [← h.1]
      have hget : m.m_midiMappings[first.row.toNat]? = some row := by
        unfold rowAt at hrow
        split at hrow
        · exact hrow
        · cases hrow
      exact set_event_actions _ _ row _ hget

/-- After `load()` and any edits the actions of the rows are still the valid
catalog actions, in catalog order. -/
theorem loadedThenEdited_actions (T : MidiTypes Event) (reg : IUiActionsRegister)
    (I : IMidiRemote Event R) (m : MidiDeviceMappingModel Event)
    (h : LoadedThenEdited T reg I m) :
    m.m_midiMappings.map MidiMapping.action =
      allMidiActions.filter (fun a => (reg a).isValid) := by
  induction h with
  | loaded r m0 => exact load_actions T reg I r m0
  | selected m0 sel _ ih =>
    unfold setSelection
    split
    · exact ih
    · exact ih
  | edited m0 m1 v fx _ hedit ih =>
    rw [mapCurrent_actions T m0 m1 v fx hedit]
    exact ih

/-! ### The display fields -/

/-- The status entry of the display object of a row. -/
theorem midiMappingToObject_status (T : MidiTypes Event) (reg : IUiActionsRegister)
    (row : MidiMapping Event) :
    (midiMappingToObject T reg row).value STATUS_KEY =
      QVariant.string (if T.mappingIsValid row then "Active" else "Inactive") := by
  simp [midiMappingToObject, QVariantMap.assign, QVariantMap.value, TITLE_KEY, ICON_KEY,
    STATUS_KEY, MAPPED_VALUE_KEY]

/-- The status field of `data` for a valid index of an existing row. -/
theorem data_status (T : MidiTypes Event) (reg : IUiActionsRegister)
    (m : MidiDeviceMappingModel Event) (index : QModelIndex) (row : MidiMapping Event)
    (hvalid : index.isValid = true) (hrow : rowAt m.m_midiMappings index.row = some row) :
    data T reg m index RoleStatus =
      some (QVariant.string (if T.mappingIsValid row then "Active" else "Inactive")) := by
  simp [data, hvalid, hrow, midiMappingToObject_status, QVariant.toString, RoleStatus,
    RoleTitle, RoleIcon, Qt_UserRole]

/-! ### The model on a concrete service -/

/-- The rows of `loadedModel`: "loop" is unknown to the registry and has no
row, "play" carries the event of the service, "zoom-in" has no row. -/
theorem loadedModel_rows :
    loadedModel.m_midiMappings =
      [ { action := "rewind", event := 0 },
        { action := "play", event := 7 },
        { action := "stop", event := 0 },
        { action := "note-input", event := 0 },
        { action := "pad-note-1", event := 0 },
        { action := "pad-note-2", event := 0 },
        { action := "pad-note-4", event := 0 },
        { action := "pad-note-8", event := 0 },
        { action := "pad-note-16", event := 0 },
        { action := "pad-note-32", event := 0 },
        { action := "pad-note-64", event := 0 },
        { action := "undo", event := 0 },
        { action := "pad-rest", event := 0 },
        { action := "tie", event := 0 },
        { action := "pad-dot", event := 0 },
        { action := "pad-dotdot", event := 0 },
        { action := "note-input-realtime-auto", event := 0 } ] := by
  decide

/-- The edit of `selectedModel` evaluates to `editedModel`. -/
theorem selectedModel_edit :
    mapCurrentActionToMidiValue packedTypes selectedModel 144 =
      some (editedModel,
            [Notification.dataChanged (QModelIndex.ofRow 0) (QModelIndex.ofRow 0)]) := by
  decide

/-! ## The claims -/

/-- C1: after `load()` the action identifiers of the rows are the catalog
`allMidiActions` filtered to the identifiers the registry reports valid, in
catalog order; every valid catalog identifier has exactly one row and no other
identifier has any; `rowCount()` is the number of valid catalog actions and at
most 18; this holds for every registry, every remote mapping set and whatever
rows and selection the model held before. -/
theorem load_rows_are_valid_catalog (T : MidiTypes Event) (reg : IUiActionsRegister)
    (I : IMidiRemote Event R) (r : R) (m : MidiDeviceMappingModel Event) :
    (load T reg I r m).1.m_midiMappings.map MidiMapping.action =
        allMidiActions.filter (fun a => (reg a).isValid)
      ∧ (∀ a, ((load T reg I r m).1.m_midiMappings.map MidiMapping.action).count a =
          if a ∈ allMidiActions ∧ (reg a).isValid = true then 1 else 0)
      ∧ rowCount (load T reg I r m).1 =
          ((allMidiActions.filter (fun a => (reg a).isValid)).length : Int)
      ∧ rowCount (load T reg I r m).1 ≤ 18 := by
  have hact := load_actions T reg I r m
  have hnodup : (allMidiActions.filter (fun a => (reg a).isValid)).Nodup :=
    allMidiActions_nodup.filter _
  have hlen : (load T reg I r m).1.m_midiMappings.length =
      (allMidiActions.filter (fun a => (reg a).isValid)).length := by
    rw [← hact, List.length_map]
  refine ⟨hact, ?_, ?_, ?_⟩
  · intro a
    rw [hact]
    by_cases ha : a ∈ allMidiActions ∧ (reg a).isValid = true
    · rw [if_pos ha]
      exact List.count_eq_one_of_mem hnodup (List.mem_filter.mpr ⟨ha.1, by simpa using ha.2⟩)
    · rw [if_neg ha]
      apply List.count_eq_zero_of_not_mem
      intro hmem
      have := List.mem_filter.mp hmem
      exact ha ⟨this.1, by simpa using this.2⟩
  · simp only [rowCount, hlen]
  · have hle : (allMidiActions.filter (fun a => (reg a).isValid)).length ≤ 18 := by
      have := List.length_filter_le (fun a => (reg a).isValid) allMidiActions
      rw [allMidiActions_length] at this
      exact this
    simp only [rowCount, hlen]
    exact_mod_cast hle

/-- C2: every row produced by `load()` carries the event of the first pair of
the remote mapping set with the row's action, or the default event when the
set has no pair with that action; a pair of the set whose action is not in the
catalog has no row. -/
theorem load_events_are_first_match (T : MidiTypes Event) (reg : IUiActionsRegister)
    (I : IMidiRemote Event R) (r : R) (m : MidiDeviceMappingModel Event) :
    (∀ row ∈ (load T reg I r m).1.m_midiMappings,
        (∀ pre p post, I.midiMappings r = pre ++ p :: post → p.action = row.action →
            (∀ q ∈ pre, q.action ≠ row.action) → row.event = p.event)
        ∧ ((∀ q ∈ I.midiMappings r, q.action ≠ row.action) → row.event = T.defaultEvent))
      ∧ (∀ p ∈ I.midiMappings r, p.action ∉ allMidiActions →
          ∀ row ∈ (load T reg I r m).1.m_midiMappings, row.action ≠ p.action) := by
  refine ⟨fun row hrow => ?_, fun p _ hp row hrow heq => ?_⟩
  · have hev := (load_row_event T reg I r m row hrow).2
    refine ⟨fun pre p post hsplit hp hpre => ?_, fun habs => ?_⟩
    · rw [hev, hsplit]
      exact midiEvent_first T pre post p row.action hp hpre
    · rw [hev]
      exact midiEvent_absent T _ row.action habs
  · exact hp (heq ▸ (load_row_event T reg I r m row hrow).1)

/-- The result of `apply()` in terms of the one service call on the rows. -/
theorem apply_eq_call (I : IMidiRemote Event R) (r : R) (m : MidiDeviceMappingModel Event) :
    (apply I r m).remote = (I.setMidiMappings r m.m_midiMappings).2
      ∧ (apply I r m).ret = (I.setMidiMappings r m.m_midiMappings).1.success := by
  have hcopy : copyRows m.m_midiMappings [] = m.m_midiMappings := by
    rw [copyRows_eq, List.nil_append]
  simp only [apply, hcopy, and_self]

/-- C3: `apply()` calls `setMidiMappings` of the remote service with a list
equal to the rows of the model: same length, same order, same action and
event at every position, rows with a default event included.  The service
state and the flag `apply()` ends with are those the service answers to
exactly that list, for every service. -/
theorem apply_sends_rows_unchanged (I : IMidiRemote Event R) (r : R)
    (m : MidiDeviceMappingModel Event) :
    ∃ l, (apply I r m).sent = [l]
      ∧ l = m.m_midiMappings
      ∧ l.length = m.m_midiMappings.length
      ∧ (∀ i : Nat, l[i]? = m.m_midiMappings[i]?)
      ∧ (apply I r m).remote = (I.setMidiMappings r m.m_midiMappings).2
      ∧ (apply I r m).ret = (I.setMidiMappings r m.m_midiMappings).1.success :=
  ⟨m.m_midiMappings, apply_sent I r m, rfl, rfl, fun _ => rfl,
    (apply_eq_call I r m).1, (apply_eq_call I r m).2⟩

/-- C4: when the selection designates exactly the in-bounds row `i`,
`mapCurrentActionToMidiValue(v)` keeps the number of rows, keeps every row
other than `i` (action and event), and keeps the selection. -/
theorem edit_leaves_other_rows (T : MidiTypes Event) (m : MidiDeviceMappingModel Event)
    (i : Nat) (v : Int)
    (hsel : m.m_selection.indexes = [QModelIndex.ofRow i])
    (hi : i < m.m_midiMappings.length) :
    ∃ m' fx, mapCurrentActionToMidiValue T m v = some (m', fx)
      ∧ m'.m_midiMappings.length = m.m_midiMappings.length
      ∧ (∀ j, j ≠ i → m'.m_midiMappings[j]? = m.m_midiMappings[j]?)
      ∧ m'.m_selection = m.m_selection := by
  have hrow : m.m_midiMappings[i]? = some (m.m_midiMappings[i]) := List.getElem?_eq_getElem hi
  refine ⟨_, _, mapCurrent_of_head T m i v _ (by rw [hsel]; rfl) hrow, ?_, ?_, rfl⟩
  · simp
  · intro j hj
    simp [List.getElem?_set, Ne.symm hj]

/-- Witness of C4: two rows, row 1 selected, value 144. -/
theorem edit_leaves_other_rows_witness :
    twoRowsSecondSelected.m_selection.indexes = [QModelIndex.ofRow 1]
      ∧ 1 < twoRowsSecondSelected.m_midiMappings.length
      ∧ ∃ m' fx, mapCurrentActionToMidiValue packedTypes twoRowsSecondSelected 144 = some (m', fx)
          ∧ m'.m_midiMappings.length = twoRowsSecondSelected.m_midiMappings.length
          ∧ (∀ j, j ≠ 1 → m'.m_midiMappings[j]? = twoRowsSecondSelected.m_midiMappings[j]?)
          ∧ m'.m_selection = twoRowsSecondSelected.m_selection :=
  ⟨by decide, by decide,
    edit_leaves_other_rows packedTypes twoRowsSecondSelected 1 144 (by decide) (by decide)⟩

/-- C5: when the selection designates exactly the in-bounds row `i`,
`mapCurrentActionToMidiValue(v)` sets the event of row `i` to
`Event::fromMIDI10Package(v)` whatever it was, keeps its action, and emits
exactly one notification, `dataChanged` from row `i` to row `i`. -/
theorem edit_overwrites_selected_row (T : MidiTypes Event) (m : MidiDeviceMappingModel Event)
    (i : Nat) (v : Int)
    (hsel : m.m_selection.indexes = [QModelIndex.ofRow i])
    (hi : i < m.m_midiMappings.length) :
    ∃ m' before after,
      mapCurrentActionToMidiValue T m v =
        some (m', [Notification.dataChanged (QModelIndex.ofRow i) (QModelIndex.ofRow i)])
      ∧ m.m_midiMappings[i]? = some before
      ∧ m'.m_midiMappings[i]? = some after
      ∧ after.event = T.fromMIDI10Package v
      ∧ after.action = before.action := by
  have hrow : m.m_midiMappings[i]? = some (m.m_midiMappings[i]) := List.getElem?_eq_getElem hi
  refine ⟨_, m.m_midiMappings[i],
    { action := (m.m_midiMappings[i]).action, event := T.fromMIDI10Package v },
    mapCurrent_of_head T m i v _ (by rw [hsel]; rfl) hrow, hrow, ?_, rfl, rfl⟩
  simp [List.getElem?_set, hi]

/-- Witness of C5: two rows, row 1 selected, value 144. -/
theorem edit_overwrites_selected_row_witness :
    twoRowsSecondSelected.m_selection.indexes = [QModelIndex.ofRow 1]
      ∧ 1 < twoRowsSecondSelected.m_midiMappings.length
      ∧ ∃ m' before after,
          mapCurrentActionToMidiValue packedTypes twoRowsSecondSelected 144 =
            some (m', [Notification.dataChanged (QModelIndex.ofRow 1) (QModelIndex.ofRow 1)])
          ∧ twoRowsSecondSelected.m_midiMappings[1]? = some before
          ∧ m'.m_midiMappings[1]? = some after
          ∧ after.event = packedTypes.fromMIDI10Package 144
          ∧ after.action = before.action :=
  ⟨by decide, by decide,
    edit_overwrites_selected_row packedTypes twoRowsSecondSelected 1 144 (by decide) (by decide)⟩

/-- C6, as the claim states it, fails: with two rows and a selection of one
range covering both rows, every selected index is in bounds, two rows are
selected, and `canEditAction()` is true. -/
theorem canEditAction_true_for_two_selected_rows :
    (∀ index ∈ QItemSelection.indexes [{ top := 0, bottom := 1 }],
        index.row.toNat < twoRows.length)
      ∧ (QItemSelection.indexes [{ top := 0, bottom := 1 }]).map QModelIndex.row = [0, 1]
      ∧ canEditAction packedTypes sampleRegister
          { m_midiMappings := twoRows, m_selection := [{ top := 0, bottom := 1 }] }
        = some true := by
  decide

/-- C6, amended: for a selection whose ranges are non-empty and within the
rows, `canEditAction()` is true exactly when the selection consists of one
range, whatever the number of rows that range covers; it is false for the
empty selection and for a selection of two or more ranges. -/
theorem canEditAction_iff_single_range (T : MidiTypes Event) (reg : IUiActionsRegister)
    (m : MidiDeviceMappingModel Event)
    (hsel : ∀ rg ∈ m.m_selection, rg.top ≤ rg.bottom ∧ rg.bottom < m.m_midiMappings.length) :
    canEditAction T reg m = some (decide (m.m_selection.length = 1)) := by
  by_cases hlen : m.m_selection.length = 1
  · obtain ⟨rg, hrg⟩ := List.length_eq_one.mp hlen
    have hin := hsel rg (by rw [hrg]; exact List.mem_singleton_self rg)
    have hhead : m.m_selection.indexes.head? = some (QModelIndex.ofRow rg.top) := by
      rw [hrg]
      simp [QItemSelection.indexes, range_indexes_head rg hin.1]
    have htop : rg.top < m.m_midiMappings.length := lt_of_le_of_lt hin.1 hin.2
    have hrow : m.m_midiMappings[rg.top]? = some (m.m_midiMappings[rg.top]) :=
      List.getElem?_eq_getElem htop
    simp [canEditAction, currentAction, hlen, hhead, rowAt, QModelIndex.ofRow, hrow,
      QVariant.isValid]
  · simp [canEditAction, currentAction, hlen, QVariant.isValid]

/-- Witness of the amended C6: two rows, row 1 selected. -/
theorem canEditAction_iff_single_range_witness :
    (∀ rg ∈ twoRowsSecondSelected.m_selection,
        rg.top ≤ rg.bottom ∧ rg.bottom < twoRowsSecondSelected.m_midiMappings.length)
      ∧ canEditAction packedTypes sampleRegister twoRowsSecondSelected
          = some (decide (twoRowsSecondSelected.m_selection.length = 1)) :=
  ⟨by decide,
    canEditAction_iff_single_range packedTypes sampleRegister twoRowsSecondSelected (by decide)⟩

/-- C7 at a failing input: with rows "rewind" and "play" and a selection of
two single-row ranges (rows 0 and 1), `canEditAction()` is false, yet
`mapCurrentActionToMidiValue(v)` overwrites the event of row 0 and emits
`dataChanged` for it; with the empty selection the call reads the first
element of an empty index list, which is undefined. -/
theorem edit_not_refused_for_two_ranges (T : MidiTypes Event) (reg : IUiActionsRegister)
    (a b : Event) (v : Int) :
    canEditAction T reg
        { m_midiMappings := [{ action := "rewind", event := a }, { action := "play", event := b }]
          m_selection := [{ top := 0, bottom := 0 }, { top := 1, bottom := 1 }] }
      = some false
    ∧ mapCurrentActionToMidiValue T
        { m_midiMappings := [{ action := "rewind", event := a }, { action := "play", event := b }]
          m_selection := [{ top := 0, bottom := 0 }, { top := 1, bottom := 1 }] } v
      = some ({ m_midiMappings := [{ action := "rewind", event := T.fromMIDI10Package v },
                                   { action := "play", event := b }]
                m_selection := [{ top := 0, bottom := 0 }, { top := 1, bottom := 1 }] },
              [Notification.dataChanged (QModelIndex.ofRow 0) (QModelIndex.ofRow 0)])
    ∧ mapCurrentActionToMidiValue T
        { m_midiMappings := [{ action := "rewind", event := a }, { action := "play", event := b }]
          m_selection := [] } v
      = none := by
  refine ⟨rfl, rfl, rfl⟩

/-- C8: for a valid index of an existing row, `data(index, RoleStatus)` and
the "status" entry of `midiMappingToObject` are the string "Active" when
`isValid()` holds of the row's mapping and "Inactive" when it does not, and
are the same for every actions registry. -/
theorem status_reflects_validity (T : MidiTypes Event) (reg : IUiActionsRegister)
    (m : MidiDeviceMappingModel Event) (index : QModelIndex) (row : MidiMapping Event)
    (hvalid : index.isValid = true) (hrow : rowAt m.m_midiMappings index.row = some row) :
    data T reg m index RoleStatus =
        some (QVariant.string (if T.mappingIsValid row then "Active" else "Inactive"))
      ∧ (midiMappingToObject T reg row).value STATUS_KEY =
        QVariant.string (if T.mappingIsValid row then "Active" else "Inactive")
      ∧ (data T reg m index RoleStatus = some (QVariant.string "Active") ↔
          T.mappingIsValid row = true)
      ∧ (data T reg m index RoleStatus = some (QVariant.string "Inactive") ↔
          T.mappingIsValid row = false)
      ∧ (∀ reg2 : IUiActionsRegister,
          data T reg2 m index RoleStatus = data T reg m index RoleStatus
          ∧ (midiMappingToObject T reg2 row).value STATUS_KEY =
              (midiMappingToObject T reg row).value STATUS_KEY) := by
  have hdata := fun rg : IUiActionsRegister => data_status T rg m index row hvalid hrow
  refine ⟨hdata reg, midiMappingToObject_status T reg row, ?_, ?_, fun reg2 => ⟨?_, ?_⟩⟩
  · rw [hdata reg]
    cases T.mappingIsValid row <;> simp
  · rw [hdata reg]
    cases T.mappingIsValid row <;> simp
  · rw [hdata reg, hdata reg2]
  · rw [midiMappingToObject_status, midiMappingToObject_status]

/-- Witness of C8: row 1 of the edited model, "play" with event 7, and its index. -/
theorem status_reflects_validity_witness :
    (QModelIndex.ofRow 1).isValid = true
      ∧ rowAt editedModel.m_midiMappings (QModelIndex.ofRow 1).row =
          some { action := "play", event := 7 }
      ∧ data packedTypes sampleRegister editedModel (QModelIndex.ofRow 1) RoleStatus =
          some (QVariant.string "Active") :=
  ⟨by decide, by decide,
    ((status_reflects_validity packedTypes sampleRegister editedModel (QModelIndex.ofRow 1)
      { action := "play", event := 7 } (by decide) (by decide)).2.2.1).mpr rfl⟩

/-- C9: `apply()` returns the success flag of the answer of the one
`setMidiMappings` call it makes, true for success and false for failure; it
leaves the rows and the selection of the model as they were and the service
in the state after that one call; on failure it only logs the message. -/
theorem apply_reports_service_answer (I : IMidiRemote Event R) (r : R)
    (m : MidiDeviceMappingModel Event) :
    ∃ l, (apply I r m).sent = [l]
      ∧ ((apply I r m).ret = true ↔ (I.setMidiMappings r l).1.success = true)
      ∧ ((apply I r m).ret = false ↔ (I.setMidiMappings r l).1.success = false)
      ∧ (apply I r m).remote = (I.setMidiMappings r l).2
      ∧ (apply I r m).model = m
      ∧ (apply I r m).logged =
          if (I.setMidiMappings r l).1.success then [] else [(I.setMidiMappings r l).1.text] := by
  refine ⟨copyRows m.m_midiMappings [], rfl, Iff.rfl, Iff.rfl, rfl, rfl, ?_⟩
  simp only [apply]
  cases (I.setMidiMappings r (copyRows m.m_midiMappings [])).1.success <;> rfl

/-- C10: for a model produced by `load()` and any number of selection changes
and edits, if the remote service afterwards holds the list `apply()` handed to
it and the registry answers validity on the catalog as before, `load()` after
`apply()` yields the same rows, row for row in action and event. -/
theorem apply_then_load_restores_rows (T : MidiTypes Event) (reg reg2 : IUiActionsRegister)
    (I : IMidiRemote Event R) (r : R) (m : MidiDeviceMappingModel Event)
    (hm : LoadedThenEdited T reg I m)
    (hstore : ∀ l ∈ (apply I r m).sent, I.midiMappings (apply I r m).remote = l)
    (hreg : ∀ a ∈ allMidiActions, (reg2 a).isValid = (reg a).isValid) :
    (load T reg2 I (apply I r m).remote (apply I r m).model).1.m_midiMappings
      = m.m_midiMappings := by
  have hact := loadedThenEdited_actions T reg I m hm
  have hnodup : (m.m_midiMappings.map MidiMapping.action).Nodup := by
    rw [hact]
    exact allMidiActions_nodup.filter _
  have hstored : I.midiMappings (apply I r m).remote = m.m_midiMappings :=
    hstore m.m_midiMappings (by rw [apply_sent]; exact List.mem_singleton_self _)
  have hfilter : allMidiActions.filter (fun a => (reg2 a).isValid) =
      allMidiActions.filter (fun a => (reg a).isValid) :=
    List.filter_congr (fun a ha => hreg a ha)
  rw [load_mappings_eq, hstored, hfilter, ← hact, List.map_map]
  conv_rhs => rw [← List.map_id m.m_midiMappings]
  apply List.map_congr_left
  intro row hrow
  have := midiEvent_self T m.m_midiMappings hnodup row hrow
  simp only [Function.comp, id]
  rw [this]

/-- Witness of C10: the model loaded from the service, row 0 selected and
edited to 144, applied to the storing service and loaded again. -/
theorem apply_then_load_restores_rows_witness :
    LoadedThenEdited packedTypes sampleRegister storingRemote editedModel
      ∧ (∀ l ∈ (apply storingRemote [] editedModel).sent,
          storingRemote.midiMappings (apply storingRemote [] editedModel).remote = l)
      ∧ (∀ a ∈ allMidiActions, (sampleRegister a).isValid = (sampleRegister a).isValid)
      ∧ (load packedTypes sampleRegister storingRemote (apply storingRemote [] editedModel).remote
            (apply storingRemote [] editedModel).model).1.m_midiMappings
          = editedModel.m_midiMappings :=
  have hm : LoadedThenEdited packedTypes sampleRegister storingRemote editedModel :=
    LoadedThenEdited.edited selectedModel editedModel 144
      [Notification.dataChanged (QModelIndex.ofRow 0) (QModelIndex.ofRow 0)]
      (LoadedThenEdited.selected loadedModel [{ top := 0, bottom := 0 }]
        (LoadedThenEdited.loaded _ _))
      (by decide)
  have hstore : ∀ l ∈ (apply storingRemote [] editedModel).sent,
      storingRemote.midiMappings (apply storingRemote [] editedModel).remote = l := by
    decide
  ⟨hm, hstore, fun _ _ => rfl,
    apply_then_load_restores_rows packedTypes sampleRegister sampleRegister storingRemote []
      editedModel hm hstore (fun _ _ => rfl)⟩

end MuseScore
